import Mathlib

/-!
Shallow embedding of the "Find Orphaned Images" Obsidian plugin (src/main.ts).

The host application (Obsidian) is modelled as explicit data: the vault file
listing, the result of reading each file, the result of JSON-parsing canvas
content, the resolved-links index, and the outcome of each deletion attempt.
JavaScript string primitives (`split`, `trim`, `includes`, the space-encoding
regex replaces, `parseInt`) are modelled over character lists so that every
definition evaluates by kernel reduction.
-/

namespace FindOrphanedImages

/-- A vault file as the plugin sees it: a `/`-separated path and an extension
(no leading dot). Mirrors the `TFile` fields used by src/main.ts. -/
structure TFile where
  path : String
  extension : String
  deriving DecidableEq

/-- Plugin settings, src/main.ts lines 3-8. -/
structure FindOrphanedImagesSettings where
  imageExtensions : String
  maxDeleteCount : Int
  moveToTrash : Bool
  showRibbonIcon : Bool
  deriving DecidableEq

/-- Default settings, src/main.ts lines 10-15. -/
def DEFAULT_SETTINGS : FindOrphanedImagesSettings :=
  { imageExtensions := "png, jpg, jpeg, gif, svg, bmp"
    maxDeleteCount := -1
    moveToTrash := false
    showRibbonIcon := false }

/-- JavaScript `hay.includes(needle)` on character lists: `needle` occurs as a
contiguous substring of the remaining text. -/
def jsIncludesL (needle : List Char) : List Char → Bool
  | [] => needle.isPrefixOf []
  | c :: t => if needle.isPrefixOf (c :: t) then true else jsIncludesL needle t

/-- JavaScript `hay.includes(needle)` on strings. -/
def jsIncludes (hay needle : String) : Bool :=
  jsIncludesL needle.toList hay.toList

/-- JavaScript `s.split(sep)` for a single-character separator, on character
lists. `[]` input yields `[[]]`, matching JS where `"".split(",")` is `[""]`. -/
def jsSplitChar (sep : Char) : List Char → List (List Char)
  | [] => [[]]
  | c :: rest =>
    if c = sep then [] :: jsSplitChar sep rest
    else
      match jsSplitChar sep rest with
      | [] => [[c]]
      | l :: ls => (c :: l) :: ls

/-- JavaScript `s.split(sep)` for a single-character separator. -/
def jsSplit (s : String) (sep : Char) : List String :=
  (jsSplitChar sep s.toList).map String.mk

/-- JavaScript `s.trim()` on character lists (whitespace per `Char.isWhitespace`;
the plugin only trims around user-typed extension names). -/
def jsTrimL (cs : List Char) : List Char :=
  ((cs.dropWhile Char.isWhitespace).reverse.dropWhile Char.isWhitespace).reverse

/-- JavaScript `s.trim()`. -/
def jsTrim (s : String) : String :=
  String.mk (jsTrimL s.toList)

/-- Comma-split, whitespace-trimmed extension list:
`this.settings.imageExtensions.split(',').map(ext => ext.trim())`
(src/main.ts line 160 and line 197). -/
def parseImageExtensions (imageExtensions : String) : List String :=
  (jsSplit imageExtensions ',').map jsTrim

/-- The extension-filtered candidate assets:
`allFiles.filter(file => imageExtensions.includes(file.extension))`
(src/main.ts lines 161-162; array `includes` is exact string equality). -/
def imageFilesOf (allFiles : List TFile) (imageExtensions : String) : List TFile :=
  allFiles.filter (fun file => (parseImageExtensions imageExtensions).contains file.extension)

/-- The regex replace of each space by "%20" on character lists. -/
def spaceEncodeL : List Char → List Char
  | [] => []
  | c :: rest =>
    if c = ' ' then '%' :: '2' :: '0' :: spaceEncodeL rest
    else c :: spaceEncodeL rest

/-- Source method encodeImagePath: the replace of each space by "%20"
(src/main.ts lines 281-283). -/
def encodeImagePath (imagePath : String) : String :=
  String.mk (spaceEncodeL imagePath.toList)

/-- The inline space-encoding variant of src/main.ts line 63, the replace of
each space by "%20"; the source text is the same replace as
`encodeImagePath`. -/
def spaceEncode (s : String) : String :=
  String.mk (spaceEncodeL s.toList)

/-- Variant of src/main.ts line 62, the replace of one leading slash by the
empty string: drop one leading slash if present. -/
def stripLeadingSlash (s : String) : String :=
  match s.toList with
  | '/' :: rest => String.mk rest
  | _ => s

/-- Variant of src/main.ts line 68: split on the slash character, take the
popped last segment, with the empty string as the falsy-or-undefined
fallback. -/
def canvasFileName (s : String) : String :=
  (jsSplit s '/').getLastD ""

/-- The list of path variations searched for in canvas files
(src/main.ts lines 58-69): four variants built up front, then the bare
filename pushed at the end. -/
def pathVariations (pathToCheck : String) : List String :=
  [pathToCheck,
   stripLeadingSlash pathToCheck,
   spaceEncode pathToCheck,
   encodeImagePath pathToCheck]
  ++ [canvasFileName pathToCheck]

/-- A JSON value as the canvas scan distinguishes them: a string (inspected by
the scan) or anything else (skipped by the typeof-string test). -/
inductive JsonValue where
  | str : String → JsonValue
  | nonstr : JsonValue
  deriving DecidableEq

/-- A parsed canvas node: its `Object.entries` property list. -/
structure CanvasNode where
  entries : List (String × JsonValue)
  deriving DecidableEq

/-- The parsed canvas document as the scan uses it: `nodes` when present and an
array, and `edges` with each edge already in its `JSON.stringify` form (the
only way the scan consumes edges). -/
structure CanvasData where
  nodes : Option (List CanvasNode)
  edges : Option (List String)
  deriving DecidableEq

/-- The host environment of one scan: the vault file listing, per-path read
results (`none` models a read that throws), JSON parse results per content
(`none` models `JSON.parse` throwing), and the resolved-links index as the
list of `Object.entries(metadataCache.resolvedLinks)`. Each source link
record is modelled by the list of its target keys (in Obsidian the record maps
each target to a positive reference count, so key presence is truthiness). -/
structure VaultEnv where
  files : List TFile
  readResult : String → Option String
  parseResult : String → Option CanvasData
  resolvedLinks : List (String × List String)

/-- Generic node scan (src/main.ts lines 107-116): every string-valued
property is tested for containment of any path variation. -/
def nodeGenericMatch (variants : List String) (node : CanvasNode) : Bool :=
  node.entries.any (fun kv =>
    match kv.2 with
    | .str value => variants.any (fun pv => jsIncludes value pv)
    | .nonstr => false)

/-- JS property access `node[key]` through the entries list. -/
def nodeProp (node : CanvasNode) (key : String) : Option JsonValue :=
  node.entries.lookup key

/-- The node-kind test of src/main.ts line 119: the type property equals
"file", "image" or "media". -/
def isFileLikeType (v : Option JsonValue) : Bool :=
  v == some (JsonValue.str "file") || v == some (JsonValue.str "image")
    || v == some (JsonValue.str "media")

/-- Explicit `node.file` check (src/main.ts lines 119-128). The `if (node.file)`
truthiness test makes an empty string no match; a truthy non-string `file`
value would throw in JS and land in the parse-error catch — such values do not
occur in canvas data and are modelled as no match. -/
def nodeFileMatch (variants : List String) (node : CanvasNode) : Bool :=
  if isFileLikeType (nodeProp node "type") then
    match nodeProp node "file" with
    | some (.str f) => if f = "" then false else variants.any (fun pv => jsIncludes f pv)
    | _ => false
  else false

/-- Edge check (src/main.ts lines 133-143): the stringified edge is tested for
containment of any path variation. -/
def edgeMatch (variants : List String) (edgeStr : String) : Bool :=
  variants.any (fun pv => jsIncludes edgeStr pv)

/-- The structured fallback over a successfully parsed canvas document
(src/main.ts lines 95-143). -/
def parsedCanvasMatch (variants : List String) (data : CanvasData) : Bool :=
  (match data.nodes with
   | some nodes => nodes.any (fun node => nodeGenericMatch variants node || nodeFileMatch variants node)
   | none => false)
  ||
  (match data.edges with
   | some edges => edges.any (fun e => edgeMatch variants e)
   | none => false)

/-- Processing of one canvas file (src/main.ts lines 74-151): a failed read
contributes no match; otherwise the fast substring path over the raw text,
then the structured fallback, with a parse failure contributing no match. -/
def checkCanvasFile (env : VaultEnv) (variants : List String) (canvasFile : TFile) : Bool :=
  match env.readResult canvasFile.path with
  | none => false
  | some canvasContent =>
    if variants.any (fun pv => jsIncludes canvasContent pv) then true
    else
      match env.parseResult canvasContent with
      | none => false
      | some canvasData => parsedCanvasMatch variants canvasData

/-- Filter keeping the files whose extension equals "canvas"
(src/main.ts line 56). -/
def canvasFilesOf (allFiles : List TFile) : List TFile :=
  allFiles.filter (fun file => file.extension == "canvas")

/-- Source method isImageInCanvasFiles (src/main.ts lines 53-156): true iff some
canvas file yields a match; early-returning loop over the files. -/
def isImageInCanvasFiles (env : VaultEnv) (imagePath : String) : Bool :=
  (canvasFilesOf env.files).any (fun f => checkCanvasFile env (pathVariations imagePath) f)

/-- The resolved-links loop (src/main.ts lines 170-175): some source link
record has the image path among its targets. -/
def isLinkedInNotes (resolvedLinks : List (String × List String)) (imagePath : String) : Bool :=
  resolvedLinks.any (fun entry => entry.2.contains imagePath)

/-- The per-image linked test of both scans: the notes check, then the canvas
check only when the notes check failed (src/main.ts lines 167-180). -/
def isLinkedImage (env : VaultEnv) (imagePath : String) : Bool :=
  isLinkedInNotes env.resolvedLinks imagePath || isImageInCanvasFiles env imagePath

/-- The unlinked-image sequence computed by `findUnlinkedImages`
(src/main.ts lines 158-185): candidate images in listing order, keeping the
paths of those not linked anywhere. -/
def findUnlinkedImagesScan (env : VaultEnv) (settings : FindOrphanedImagesSettings) : List String :=
  ((imageFilesOf env.files settings.imageExtensions).filter
    (fun image => !(isLinkedImage env image.path))).map (fun image => image.path)

/-- The unlinked-image sequence computed by `deleteFirstUnlinkedImage`
(src/main.ts lines 195-222): the same loop, written a second time in the
source. -/
def deleteFirstUnlinkedImageScan (env : VaultEnv) (settings : FindOrphanedImagesSettings) : List String :=
  ((imageFilesOf env.files settings.imageExtensions).filter
    (fun image => !(isLinkedImage env image.path))).map (fun image => image.path)

/-- The fixed report note name (src/main.ts line 261). -/
def reportNoteName : String := "Orphaned Images Report.md"

/-- One report bullet line (src/main.ts lines 256-258). -/
def reportLine (embedImages : Bool) (imagePath : String) : String :=
  if embedImages then "- ![](" ++ encodeImagePath imagePath ++ ")"
  else "- [" ++ imagePath ++ "](" ++ encodeImagePath imagePath ++ ")"

/-- JavaScript `Array.prototype.join(sep)`. -/
def joinWith (sep : String) : List String → String
  | [] => ""
  | [x] => x
  | x :: y :: rest => x ++ sep ++ joinWith sep (y :: rest)

/-- The full report text `noteContent` (src/main.ts lines 255-259). -/
def noteContent (unlinkedImages : List String) (embedImages : Bool) : String :=
  "# Orphaned Images\n\nThese images are not linked in any note:\n\n" ++
    joinWith "\n" (unlinkedImages.map (fun imagePath => reportLine embedImages imagePath))

/-- The markdown documents of the vault as a path-to-content association list. -/
abbrev NoteStore := List (String × String)

/-- Write-or-overwrite: the `getAbstractFileByPath` existence test followed by
`vault.modify` (replace content in place) or `vault.create` (append a new
entry), src/main.ts lines 264-271. -/
def storeWrite (store : NoteStore) (path content : String) : NoteStore :=
  if store.any (fun e => e.1 == path) then
    store.map (fun e => if e.1 == path then (path, content) else e)
  else store ++ [(path, content)]

/-- Content lookup in the store. -/
def storeRead (store : NoteStore) (path : String) : Option String :=
  store.lookup path

/-- Source method createOrUpdateUnlinkedImagesNote (src/main.ts lines 253-279): the new
store plus the user notifications it emits. -/
def createOrUpdateUnlinkedImagesNote (store : NoteStore) (unlinkedImages : List String)
    (embedImages : Bool) : NoteStore × List String :=
  (storeWrite store reportNoteName (noteContent unlinkedImages embedImages),
   ["Note \"Orphaned Images Report.md\" created or updated with orphaned images."])

/-- Source method findUnlinkedImages end to end (src/main.ts lines 158-193): the scan, then
either report emission or the "all linked" notification. Returns the resulting
store and the notifications in order. -/
def findUnlinkedImages (env : VaultEnv) (settings : FindOrphanedImagesSettings)
    (store : NoteStore) (embedImages : Bool) : NoteStore × List String :=
  let unlinkedImages := findUnlinkedImagesScan env settings
  if unlinkedImages.length > 0 then
    let result := createOrUpdateUnlinkedImagesNote store unlinkedImages embedImages
    (result.1,
     result.2 ++ ["Found " ++ toString unlinkedImages.length ++
       " orphaned images. Note created or updated with details."])
  else
    (store, ["All images are linked!"])

/-- The outcome the host gives one deletion candidate: `notFile` when
`getAbstractFileByPath` does not yield a `TFile` (nothing is attempted),
`success` when the delete/trash call returns, `failure` when it throws. -/
inductive DeleteOutcome where
  | notFile
  | success
  | failure
  deriving DecidableEq

/-- Result of the deletion pass: the final `deleteCount`, the candidates on
which a delete/trash call was attempted, in order, and the notifications. -/
structure DeleteResult where
  deleteCount : Nat
  attempted : List String
  notices : List String
  deriving DecidableEq

/-- The deletion loop of `deleteFirstUnlinkedImage` (src/main.ts lines
224-246): break once `deleteCount` reaches a non-(-1) `maxDeleteCount`;
a non-file candidate is skipped; a successful delete or trash increments the
count and notifies; a throwing delete is caught, notified, and the loop
continues with the next candidate. -/
def deleteLoop (outcome : String → DeleteOutcome) (moveToTrash : Bool)
    (maxDeleteCount : Int) : List String → Nat → DeleteResult
  | [], deleteCount => ⟨deleteCount, [], []⟩
  | imagePath :: rest, deleteCount =>
    if maxDeleteCount ≠ -1 ∧ (deleteCount : Int) ≥ maxDeleteCount then
      ⟨deleteCount, [], []⟩
    else
      match outcome imagePath with
      | .notFile => deleteLoop outcome moveToTrash maxDeleteCount rest deleteCount
      | .success =>
        let r := deleteLoop outcome moveToTrash maxDeleteCount rest (deleteCount + 1)
        ⟨r.deleteCount, imagePath :: r.attempted,
         (if moveToTrash then "Moved orphaned image to trash: " ++ imagePath
          else "Deleted orphaned image: " ++ imagePath) :: r.notices⟩
      | .failure =>
        let r := deleteLoop outcome moveToTrash maxDeleteCount rest deleteCount
        ⟨r.deleteCount, imagePath :: r.attempted,
         "Failed to delete the orphaned image." :: r.notices⟩

/-- Source method deleteFirstUnlinkedImage end to end (src/main.ts lines 195-251): its own
scan, the deletion loop, and the trailing "nothing to delete" notification. -/
def deleteFirstUnlinkedImage (env : VaultEnv) (outcome : String → DeleteOutcome)
    (settings : FindOrphanedImagesSettings) : DeleteResult :=
  let unlinkedImages := deleteFirstUnlinkedImageScan env settings
  let r := deleteLoop outcome settings.moveToTrash settings.maxDeleteCount unlinkedImages 0
  if r.deleteCount = 0 then
    ⟨r.deleteCount, r.attempted, r.notices ++ ["No orphaned images found to delete."]⟩
  else r

/-- JavaScript `parseInt(value, 10)`: skip leading whitespace, an optional
sign, then the longest digit prefix; `none` models `NaN` (no digits). -/
def jsParseInt10 (value : String) : Option Int :=
  let cs := value.toList.dropWhile Char.isWhitespace
  let signAndRest : Int × List Char :=
    match cs with
    | '-' :: rest => (-1, rest)
    | '+' :: rest => (1, rest)
    | _ => (1, cs)
  let digits := signAndRest.2.takeWhile Char.isDigit
  if digits.isEmpty then none
  else some (signAndRest.1 *
    (digits.foldl (fun acc c => acc * 10 + (c.toNat - Char.toNat '0')) 0 : Nat))

/-- The Max delete count settings handler
`this.plugin.settings.maxDeleteCount = parseInt(value, 10) || -1`
(src/main.ts line 384): `||` replaces the falsy numbers `NaN` and `0`
by `-1`. -/
def maxDeleteCountOnChange (value : String) : Int :=
  match jsParseInt10 value with
  | none => -1
  | some n => if n = 0 then -1 else n

/-- Line splitting on the newline character (inverse view of the report text;
`jsSplitChar` is the JS split on the character '\n'). -/
def splitLines (s : String) : List String :=
  (jsSplitChar (Char.ofNat 10) s.toList).map String.mk

/-- Test vault: two images, the first linked through the resolved-links index,
no canvas files. -/
def linkedEnv : VaultEnv :=
  { files := [⟨"img/a.png", "png"⟩, ⟨"img/b.png", "png"⟩]
    readResult := fun _ => none
    parseResult := fun _ => none
    resolvedLinks := [("note1.md", ["img/a.png"])] }

/-- Test vault: two images, an empty link index, and one canvas file whose raw
text mentions the second image. -/
def canvasEnv : VaultEnv :=
  { files := [⟨"img/a.png", "png"⟩, ⟨"img/b.png", "png"⟩, ⟨"board.canvas", "canvas"⟩]
    readResult := fun p => if p == "board.canvas" then some "text with img/b.png inside" else none
    parseResult := fun _ => none
    resolvedLinks := [] }

/-- Test vault: one unreadable canvas file and one readable canvas file whose
content matches nothing and fails to parse. -/
def faultyEnv : VaultEnv :=
  { files := [⟨"bad.canvas", "canvas"⟩, ⟨"ok.canvas", "canvas"⟩]
    readResult := fun p => if p == "ok.canvas" then some "zzz" else none
    parseResult := fun _ => none
    resolvedLinks := [] }

/-- Test vault with no files at all. -/
def emptyEnv : VaultEnv :=
  { files := []
    readResult := fun _ => none
    parseResult := fun _ => none
    resolvedLinks := [] }

/-- Any path the per-image linked test accepts is never emitted by the scan. -/
theorem not_in_scan_of_linked (env : VaultEnv) (settings : FindOrphanedImagesSettings)
    (p : String) (h : isLinkedImage env p = true) :
    p ∉ findUnlinkedImagesScan env settings := by
  intro hmem
  simp only [findUnlinkedImagesScan, List.mem_map, List.mem_filter] at hmem
  obtain ⟨image, ⟨hin, hnl⟩, hpath⟩ := hmem
  subst hpath
  rw [h] at hnl
  simp at hnl

/-- Claim C1: if the path of an asset appears as a target in the link set of any
source document of the resolved-links index, then `findUnlinkedImages` never
places that path in the UnlinkedSet. -/
theorem spec_C1 (env : VaultEnv) (settings : FindOrphanedImagesSettings) (p : String)
    (h : ∃ entry ∈ env.resolvedLinks, p ∈ entry.2) :
    p ∉ findUnlinkedImagesScan env settings := by
  apply not_in_scan_of_linked
  obtain ⟨entry, hent, hp⟩ := h
  have hnotes : isLinkedInNotes env.resolvedLinks p = true := by
    simp only [isLinkedInNotes, List.any_eq_true]
    exact ⟨entry, hent, by simpa using hp⟩
  simp [isLinkedImage, hnotes]

/-- Claim C1 witness: in `linkedEnv`, the path "img/a.png" is a resolved-link
target and is absent from the scan result. -/
theorem spec_C1_witness :
    (∃ entry ∈ linkedEnv.resolvedLinks, "img/a.png" ∈ entry.2) ∧
      "img/a.png" ∉ findUnlinkedImagesScan linkedEnv DEFAULT_SETTINGS :=
  ⟨by decide, spec_C1 linkedEnv DEFAULT_SETTINGS "img/a.png" (by decide)⟩

/-- Claim C2: if the path of an asset occurs as a literal substring anywhere in the
raw text of at least one readable canvas document, the scan never places that
path in the UnlinkedSet. -/
theorem spec_C2 (env : VaultEnv) (settings : FindOrphanedImagesSettings) (p : String)
    (f : TFile) (content : String) (hf : f ∈ env.files) (hext : f.extension = "canvas")
    (hread : env.readResult f.path = some content)
    (hsub : jsIncludes content p = true) :
    p ∉ findUnlinkedImagesScan env settings := by
  apply not_in_scan_of_linked
  have hcanvas : isImageInCanvasFiles env p = true := by
    simp only [isImageInCanvasFiles, List.any_eq_true]
    refine ⟨f, ?_, ?_⟩
    · simp [canvasFilesOf, List.mem_filter, hf, hext]
    · have hfast : (pathVariations p).any (fun pv => jsIncludes content pv) = true := by
        simp only [List.any_eq_true]
        exact ⟨p, by simp [pathVariations], hsub⟩
      simp [checkCanvasFile, hread, hfast]
  simp [isLinkedImage, hcanvas]

/-- Claim C2 witness: in `canvasEnv`, the raw text of the canvas file contains
"img/b.png", and that path is absent from the scan result. -/
theorem spec_C2_witness :
    (⟨"board.canvas", "canvas"⟩ : TFile) ∈ canvasEnv.files ∧
      canvasEnv.readResult "board.canvas" = some "text with img/b.png inside" ∧
      jsIncludes "text with img/b.png inside" "img/b.png" = true ∧
      "img/b.png" ∉ findUnlinkedImagesScan canvasEnv DEFAULT_SETTINGS :=
  ⟨by decide, by decide, by decide,
    spec_C2 canvasEnv DEFAULT_SETTINGS "img/b.png" ⟨"board.canvas", "canvas"⟩
      "text with img/b.png inside" (by decide) rfl (by decide) (by decide)⟩

/-- Claim C9: if the scan produces an empty UnlinkedSet, `findUnlinkedImages`
leaves the document store unchanged and surfaces the "all linked"
notification. -/
theorem spec_C9 (env : VaultEnv) (settings : FindOrphanedImagesSettings)
    (store : NoteStore) (embedImages : Bool)
    (h : findUnlinkedImagesScan env settings = []) :
    findUnlinkedImages env settings store embedImages = (store, ["All images are linked!"]) := by
  simp [findUnlinkedImages, h]

/-- Claim C9 witness: on the empty vault, the report action leaves a store
with an existing report untouched and notifies "All images are linked!". -/
theorem spec_C9_witness :
    findUnlinkedImages emptyEnv DEFAULT_SETTINGS [("Orphaned Images Report.md", "old")] false
      = ([("Orphaned Images Report.md", "old")], ["All images are linked!"]) :=
  spec_C9 emptyEnv DEFAULT_SETTINGS [("Orphaned Images Report.md", "old")] false (by decide)

/-- Claim C10: `findUnlinkedImages` and `deleteFirstUnlinkedImage` compute the
same unlinked-image sequence on identical vault contents, link index, and
settings (the source duplicates the scan verbatim in both methods). -/
theorem spec_C10 (env : VaultEnv) (settings : FindOrphanedImagesSettings) :
    findUnlinkedImagesScan env settings = deleteFirstUnlinkedImageScan env settings := rfl

/-- With a nonnegative cap and only successful deletions, the attempted
candidates are exactly the next `m - c` elements in order. -/
theorem deleteLoop_attempted_success (outcome : String → DeleteOutcome) (mt : Bool) (m : Nat) :
    ∀ (l : List String) (c : Nat), (∀ p ∈ l, outcome p = DeleteOutcome.success) →
      (deleteLoop outcome mt ((m : Nat) : Int) l c).attempted = l.take (m - c) := by
  intro l
  induction l with
  | nil => intro c h; simp [deleteLoop]
  | cons p rest ih =>
    intro c h
    by_cases hc : m ≤ c
    · have hguard : ((m : Int) ≠ -1 ∧ (c : Int) ≥ (m : Int)) := ⟨by omega, by exact_mod_cast hc⟩
      have hmc : m - c = 0 := by omega
      simp [deleteLoop, hguard, hmc]
    · have hguard : ¬((m : Int) ≠ -1 ∧ (c : Int) ≥ (m : Int)) := by
        intro hg
        have := hg.2
        omega
      have hp : outcome p = DeleteOutcome.success := h p (by simp)
      have hrest : ∀ q ∈ rest, outcome q = DeleteOutcome.success :=
        fun q hq => h q (by simp [hq])
      have hmc : m - c = (m - (c + 1)) + 1 := by omega
      simp [deleteLoop, hguard, hp, ih (c + 1) hrest, hmc, hc]

/-- With the sentinel cap -1, every candidate that resolves to a file is
attempted, in order. -/
theorem deleteLoop_attempted_unbounded (outcome : String → DeleteOutcome) (mt : Bool) :
    ∀ (l : List String) (c : Nat), (∀ p ∈ l, outcome p ≠ DeleteOutcome.notFile) →
      (deleteLoop outcome mt (-1) l c).attempted = l := by
  intro l
  induction l with
  | nil => intro c h; simp [deleteLoop]
  | cons p rest ih =>
    intro c h
    have hguard : ¬((-1 : Int) ≠ -1 ∧ (c : Int) ≥ -1) := by simp
    have hp := h p (by simp)
    have hrest : ∀ q ∈ rest, outcome q ≠ DeleteOutcome.notFile :=
      fun q hq => h q (by simp [hq])
    cases ho : outcome p with
    | notFile => exact absurd ho hp
    | success => simp [deleteLoop, hguard, ho, ih (c + 1) hrest]
    | failure => simp [deleteLoop, hguard, ho, ih c hrest]

/-- Claim C3: the deletion loop walks the UnlinkedSet in scan order and stops
once the deleted count reaches `maxDeleteCount`; `-1` means unbounded (every
resolving element is attempted); for an UnlinkedSet of length 5 and cap 2 with
the first two deletions succeeding, exactly the first two deletions are
attempted regardless of the later elements. -/
theorem spec_C3 (outcome : String → DeleteOutcome) (mt : Bool) (l : List String) :
    ((∀ p ∈ l, outcome p = DeleteOutcome.success) →
      ∀ m : Nat, (deleteLoop outcome mt ((m : Nat) : Int) l 0).attempted = l.take m)
    ∧ ((∀ p ∈ l, outcome p ≠ DeleteOutcome.notFile) →
      (deleteLoop outcome mt (-1) l 0).attempted = l)
    ∧ (∀ p1 p2 p3 p4 p5, outcome p1 = DeleteOutcome.success →
        outcome p2 = DeleteOutcome.success →
        (deleteLoop outcome mt 2 [p1, p2, p3, p4, p5] 0).attempted = [p1, p2]) := by
  refine ⟨fun h m => ?_, fun h => deleteLoop_attempted_unbounded outcome mt l 0 h,
    fun p1 p2 p3 p4 p5 h1 h2 => ?_⟩
  · have := deleteLoop_attempted_success outcome mt m l 0 h
    simpa using this
  · have g0 : ¬((2 : Int) ≠ -1 ∧ (0 : Int) ≥ 2) := by omega
    have g1 : ¬((2 : Int) ≠ -1 ∧ ((0 : Nat) + 1 : Int) ≥ 2) := by omega
    have g2 : ((2 : Int) ≠ -1 ∧ (((0 : Nat) + 1 + 1 : Nat) : Int) ≥ 2) := by
      constructor <;> omega
    simp [deleteLoop, h1, h2, g0, g1, g2]

/-- Claim C3 witness: five candidates that all resolve and delete cleanly, cap
2 and cap -1. -/
theorem spec_C3_witness :
    (deleteLoop (fun _ => DeleteOutcome.success) false ((2 : Nat) : Int)
        ["a", "b", "c", "d", "e"] 0).attempted = ["a", "b", "c", "d", "e"].take 2
    ∧ (deleteLoop (fun _ => DeleteOutcome.success) false (-1)
        ["a", "b", "c", "d", "e"] 0).attempted = ["a", "b", "c", "d", "e"] := by
  constructor
  · exact (spec_C3 (fun _ => DeleteOutcome.success) false ["a", "b", "c", "d", "e"]).1
      (by intro p hp; rfl) 2
  · exact (spec_C3 (fun _ => DeleteOutcome.success) false ["a", "b", "c", "d", "e"]).2.1
      (by intro p hp; simp)

/-- Claim C4: in the Max delete count settings handler, any input whose
`parseInt` value is 0 or NaN (for example "0") sets `maxDeleteCount` to -1,
and no input through that field configures a cap of exactly zero. -/
theorem spec_C4 :
    maxDeleteCountOnChange "0" = -1
    ∧ (∀ value, jsParseInt10 value = some 0 ∨ jsParseInt10 value = none →
        maxDeleteCountOnChange value = -1)
    ∧ (∀ value, maxDeleteCountOnChange value ≠ 0) := by
  refine ⟨by decide, fun value h => ?_, fun value => ?_⟩
  · rcases h with h | h <;> simp [maxDeleteCountOnChange, h]
  · unfold maxDeleteCountOnChange
    cases hv : jsParseInt10 value with
    | none => decide
    | some n =>
      by_cases hn : n = 0
      · simp [hn]
      · simp [hn]

/-- Claim C4 witness: the string "0" parses to 0 and the handler stores -1. -/
theorem spec_C4_witness :
    jsParseInt10 "0" = some 0 ∧ maxDeleteCountOnChange "0" = -1 :=
  ⟨by decide, spec_C4.2.1 "0" (Or.inl (by decide))⟩

/-- Claim C5: an asset is a scan candidate iff its extension is exactly equal
(case-sensitively, unnormalized) to one of the comma-split, trimmed entries of
the `imageExtensions` setting; in particular an asset with extension "PNG" is
excluded by the filter entry "png". -/
theorem spec_C5 :
    (∀ (allFiles : List TFile) (exts : String) (f : TFile),
      f ∈ imageFilesOf allFiles exts ↔ f ∈ allFiles ∧ f.extension ∈ parseImageExtensions exts)
    ∧ (⟨"foo.PNG", "PNG"⟩ : TFile) ∉ imageFilesOf [⟨"foo.PNG", "PNG"⟩] "png" := by
  refine ⟨fun allFiles exts f => ?_, by decide⟩
  simp [imageFilesOf, List.mem_filter]

/-- Claim C6: for every asset path `p` the searched variant list is exactly
`p`, `p` without a leading slash, `p` with spaces as %20, `encodeImagePath p`,
and the final path segment — and `encodeImagePath p` equals the
space-replacement variant for every `p`. -/
theorem spec_C6 (p : String) :
    pathVariations p
        = [p, stripLeadingSlash p, spaceEncode p, encodeImagePath p, canvasFileName p]
    ∧ encodeImagePath p = spaceEncode p :=
  ⟨rfl, rfl⟩

/-- Claim C7: per-document canvas read failures and JSON parse failures, and
per-file deletion failures, are absorbed where they occur: an unreadable
canvas document and an unparseable one (with no raw-text hit) contribute
nothing and the scan of the remaining documents proceeds unchanged; a failing
deletion emits the failure notification, leaves the count unchanged, and the
loop continues with the remaining candidates. The functions of the model are total,
so no error reaches a caller. -/
theorem spec_C7 :
    (∀ (env : VaultEnv) (vs : List String) (f : TFile) (rest : List TFile),
      env.readResult f.path = none →
        (f :: rest).any (fun g => checkCanvasFile env vs g)
          = rest.any (fun g => checkCanvasFile env vs g))
    ∧ (∀ (env : VaultEnv) (vs : List String) (f : TFile) (rest : List TFile) (content : String),
      env.readResult f.path = some content →
      vs.any (fun pv => jsIncludes content pv) = false →
      env.parseResult content = none →
        (f :: rest).any (fun g => checkCanvasFile env vs g)
          = rest.any (fun g => checkCanvasFile env vs g))
    ∧ (∀ (outcome : String → DeleteOutcome) (mt : Bool) (m : Int) (p : String)
        (rest : List String) (c : Nat),
      ¬(m ≠ -1 ∧ (c : Int) ≥ m) → outcome p = DeleteOutcome.failure →
        deleteLoop outcome mt m (p :: rest) c
          = ⟨(deleteLoop outcome mt m rest c).deleteCount,
             p :: (deleteLoop outcome mt m rest c).attempted,
             "Failed to delete the orphaned image."
               :: (deleteLoop outcome mt m rest c).notices⟩) := by
  refine ⟨fun env vs f rest h => ?_, fun env vs f rest content hread hfast hparse => ?_,
    fun outcome mt m p rest c hguard hfail => ?_⟩
  · have hcheck : checkCanvasFile env vs f = false := by
      unfold checkCanvasFile
      rw [h]
    simp [List.any_cons, hcheck]
  · have hcheck : checkCanvasFile env vs f = false := by
      unfold checkCanvasFile
      rw [hread]
      simp [hfast, hparse]
    simp [List.any_cons, hcheck]
  · simp [deleteLoop, hguard, hfail]

/-- Claim C7 witness: in `faultyEnv`, the unreadable document and the
unparseable no-hit document each leave the remaining scan unchanged, and a
failing deletion keeps the loop going with the failure notification. -/
theorem spec_C7_witness :
    ((⟨"bad.canvas", "canvas"⟩ :: [⟨"ok.canvas", "canvas"⟩] : List TFile).any
        (fun g => checkCanvasFile faultyEnv (pathVariations "img/a.png") g)
      = ([⟨"ok.canvas", "canvas"⟩] : List TFile).any
        (fun g => checkCanvasFile faultyEnv (pathVariations "img/a.png") g))
    ∧ ((⟨"ok.canvas", "canvas"⟩ :: ([] : List TFile)).any
        (fun g => checkCanvasFile faultyEnv (pathVariations "img/a.png") g)
      = ([] : List TFile).any
        (fun g => checkCanvasFile faultyEnv (pathVariations "img/a.png") g))
    ∧ deleteLoop (fun _ => DeleteOutcome.failure) false 5 ["x"] 0
      = ⟨(deleteLoop (fun _ => DeleteOutcome.failure) false 5 [] 0).deleteCount,
         "x" :: (deleteLoop (fun _ => DeleteOutcome.failure) false 5 [] 0).attempted,
         "Failed to delete the orphaned image."
           :: (deleteLoop (fun _ => DeleteOutcome.failure) false 5 [] 0).notices⟩ :=
  ⟨spec_C7.1 faultyEnv (pathVariations "img/a.png") ⟨"bad.canvas", "canvas"⟩
      [⟨"ok.canvas", "canvas"⟩] rfl,
   spec_C7.2.1 faultyEnv (pathVariations "img/a.png") ⟨"ok.canvas", "canvas"⟩ [] "zzz"
      rfl (by decide) rfl,
   spec_C7.2.2 (fun _ => DeleteOutcome.failure) false 5 "x" [] 0 (by omega) rfl⟩

/-- Splitting never yields the empty list of segments. -/
theorem jsSplitChar_ne_nil (sep : Char) (cs : List Char) : jsSplitChar sep cs ≠ [] := by
  induction cs with
  | nil => simp [jsSplitChar]
  | cons c t ih =>
    by_cases hc : c = sep
    · simp [jsSplitChar, hc]
    · cases h : jsSplitChar sep t with
      | nil => exact absurd h ih
      | cons l ls => simp [jsSplitChar, hc, h]

/-- A separator-free prefix extends the first segment of the split. -/
theorem jsSplitChar_append_no_sep (sep : Char) (cs ds : List Char) (l : List Char)
    (ls : List (List Char)) (h : ∀ c ∈ cs, c ≠ sep)
    (hds : jsSplitChar sep ds = l :: ls) :
    jsSplitChar sep (cs ++ ds) = (cs ++ l) :: ls := by
  induction cs with
  | nil => simpa using hds
  | cons c t ih =>
    have hc : c ≠ sep := h c (by simp)
    have ht : ∀ x ∈ t, x ≠ sep := fun x hx => h x (by simp [hx])
    simp [jsSplitChar, hc, ih ht]

/-- A separator after a separator-free prefix closes off that segment. -/
theorem jsSplitChar_append_sep (sep : Char) (cs ds : List Char)
    (h : ∀ c ∈ cs, c ≠ sep) :
    jsSplitChar sep (cs ++ sep :: ds) = cs :: jsSplitChar sep ds := by
  cases hds : jsSplitChar sep ds with
  | nil => exact absurd hds (jsSplitChar_ne_nil sep ds)
  | cons l ls =>
    have hsep : jsSplitChar sep (sep :: ds) = [] :: l :: ls := by
      simp [jsSplitChar, hds]
    have := jsSplitChar_append_no_sep sep cs (sep :: ds) [] (l :: ls) h hsep
    simpa [hds] using this

/-- String append distributes over `toList`. -/
theorem jsToList_append (a b : String) : (a ++ b).toList = a.toList ++ b.toList := rfl

/-- Rebuilding a string from its characters is the identity. -/
theorem mk_toList (s : String) : String.mk s.toList = s := rfl

/-- Splitting on newline inverts the JS array join with separator "\n" over
newline-free lines. -/
theorem jsSplitChar_joinWith (ls : List String)
    (h : ∀ s ∈ ls, ∀ c ∈ s.toList, c ≠ Char.ofNat 10) (hne : ls ≠ []) :
    jsSplitChar (Char.ofNat 10) (joinWith "\n" ls).toList = ls.map String.toList := by
  induction ls with
  | nil => exact absurd rfl hne
  | cons x t ih =>
    cases t with
    | nil =>
      have hx : ∀ c ∈ x.toList, c ≠ Char.ofNat 10 := h x (by simp)
      have := jsSplitChar_append_no_sep (Char.ofNat 10) x.toList [] [] [] hx
        (by simp [jsSplitChar])
      simpa using this
    | cons y r =>
      have hx : ∀ c ∈ x.toList, c ≠ Char.ofNat 10 := h x (by simp)
      have ht : ∀ s ∈ y :: r, ∀ c ∈ s.toList, c ≠ Char.ofNat 10 :=
        fun s hs => h s (by simp [hs])
      have ihh := ih ht (by simp)
      have hto : (joinWith "\n" (x :: y :: r)).toList
          = x.toList ++ (Char.ofNat 10) :: (joinWith "\n" (y :: r)).toList := by
        show (x ++ "\n" ++ joinWith "\n" (y :: r)).toList = _
        rw [jsToList_append, jsToList_append]
        simp
      rw [hto, jsSplitChar_append_sep (Char.ofNat 10) x.toList _ hx, ihh]
      simp

/-- Space encoding introduces no newline. -/
theorem spaceEncodeL_no_newline (cs : List Char) (h : ∀ c ∈ cs, c ≠ Char.ofNat 10) :
    ∀ c ∈ spaceEncodeL cs, c ≠ Char.ofNat 10 := by
  induction cs with
  | nil => simp [spaceEncodeL]
  | cons a t ih =>
    intro c hc
    have ha := h a (by simp)
    have ht : ∀ x ∈ t, x ≠ Char.ofNat 10 := fun x hx => h x (by simp [hx])
    by_cases hsp : a = ' '
    · simp [spaceEncodeL, hsp] at hc
      rcases hc with h1 | h1 | h1 | h1
      · subst h1; decide
      · subst h1; decide
      · subst h1; decide
      · exact ih ht c h1
    · simp [spaceEncodeL, hsp] at hc
      rcases hc with h1 | h1
      · subst h1; exact ha
      · exact ih ht c h1

/-- A report bullet line of a newline-free path is newline-free. -/
theorem reportLine_no_newline (e : Bool) (p : String)
    (h : ∀ c ∈ p.toList, c ≠ Char.ofNat 10) :
    ∀ c ∈ (reportLine e p).toList, c ≠ Char.ofNat 10 := by
  intro c hc
  have henc : ∀ x ∈ (encodeImagePath p).toList, x ≠ Char.ofNat 10 := by
    intro x hx
    exact spaceEncodeL_no_newline p.toList h x hx
  cases e with
  | false =>
    rw [show (reportLine false p).toList
        = ("- [" : String).toList ++ p.toList ++ ("](" : String).toList
          ++ (encodeImagePath p).toList ++ (")" : String).toList from rfl] at hc
    rcases List.mem_append.mp hc with h4 | hC
    · rcases List.mem_append.mp h4 with h3 | hE
      · rcases List.mem_append.mp h3 with h2 | hB
        · rcases List.mem_append.mp h2 with hA | hP
          · exact (by decide : ∀ x ∈ ("- [" : String).toList, x ≠ Char.ofNat 10) c hA
          · exact h c hP
        · exact (by decide : ∀ x ∈ ("](" : String).toList, x ≠ Char.ofNat 10) c hB
      · exact henc c hE
    · exact (by decide : ∀ x ∈ (")" : String).toList, x ≠ Char.ofNat 10) c hC
  | true =>
    rw [show (reportLine true p).toList
        = ("- ![](" : String).toList ++ (encodeImagePath p).toList
          ++ (")" : String).toList from rfl] at hc
    rcases List.mem_append.mp hc with h2 | hC
    · rcases List.mem_append.mp h2 with hA | hE
      · exact (by decide : ∀ x ∈ ("- ![](" : String).toList, x ≠ Char.ofNat 10) c hA
      · exact henc c hE
    · exact (by decide : ∀ x ∈ (")" : String).toList, x ≠ Char.ofNat 10) c hC

/-- The report text of newline-free paths splits into the two fixed header
lines, two blank separators, and one bullet line per path, in order. -/
theorem splitLines_noteContent (u : List String) (e : Bool) (hne : u ≠ [])
    (h : ∀ p ∈ u, ∀ c ∈ p.toList, c ≠ Char.ofNat 10) :
    splitLines (noteContent u e)
      = ["# Orphaned Images", "", "These images are not linked in any note:", ""]
        ++ u.map (reportLine e) := by
  have hlines : ∀ s ∈ u.map (reportLine e), ∀ c ∈ s.toList, c ≠ Char.ofNat 10 := by
    intro s hs
    rw [List.mem_map] at hs
    obtain ⟨p, hp, rfl⟩ := hs
    exact reportLine_no_newline e p (h p hp)
  have hnemap : u.map (reportLine e) ≠ [] := by simpa using hne
  have hJ := jsSplitChar_joinWith (u.map (reportLine e)) hlines hnemap
  have hdecomp : (noteContent u e).toList
      = "# Orphaned Images".toList ++ (Char.ofNat 10)
        :: (([] : List Char) ++ (Char.ofNat 10)
        :: ("These images are not linked in any note:".toList ++ (Char.ofNat 10)
        :: (([] : List Char) ++ (Char.ofNat 10)
        :: (joinWith "\n" (u.map (fun imagePath => reportLine e imagePath))).toList))) := by
    rw [show noteContent u e
        = "# Orphaned Images\n\nThese images are not linked in any note:\n\n"
          ++ joinWith "\n" (u.map (fun imagePath => reportLine e imagePath)) from rfl,
      jsToList_append]
    rfl
  unfold splitLines
  rw [hdecomp,
    jsSplitChar_append_sep _ _ _ (by decide),
    jsSplitChar_append_sep _ _ _ (by simp),
    jsSplitChar_append_sep _ _ _ (by decide),
    jsSplitChar_append_sep _ _ _ (by simp)]
  have hmap : u.map (fun imagePath => reportLine e imagePath) = u.map (reportLine e) := rfl
  rw [hmap, hJ]
  simp [mk_toList, List.map_map, Function.comp]

/-- Every entry whose key already occurs is replaced by the new content. -/
theorem lookup_overwrite (k v : String) : ∀ (store : NoteStore),
    store.any (fun e => e.1 == k) = true →
    (store.map (fun e => if e.1 == k then (k, v) else e)).lookup k = some v := by
  intro store
  induction store with
  | nil => simp
  | cons a t ih =>
    intro h
    cases hb : (a.1 == k) with
    | true =>
      simp only [List.map_cons, hb, if_true]
      simp [List.lookup]
    | false =>
      have ht : t.any (fun e => e.1 == k) = true := by
        simpa [List.any_cons, hb] using h
      have hne : a.1 ≠ k := by simpa using hb
      have hka : (k == a.1) = false := by simpa using Ne.symm hne
      simp only [List.map_cons, hb, Bool.false_eq_true, if_false]
      simp only [List.lookup, hka]
      simpa using ih ht

/-- Appending a fresh entry makes it the lookup result when no existing key
matches. -/
theorem lookup_append_missing (k v : String) : ∀ (store : NoteStore),
    store.any (fun e => e.1 == k) = false →
    (store ++ [(k, v)]).lookup k = some v := by
  intro store
  induction store with
  | nil => simp [List.lookup]
  | cons a t ih =>
    intro h
    have hsplit : (a.1 == k) = false ∧ t.any (fun e => e.1 == k) = false := by
      constructor
      · cases hb : (a.1 == k) with
        | true => rw [List.any_cons, hb] at h; simp at h
        | false => rfl
      · cases hb : t.any (fun e => e.1 == k) with
        | true => rw [List.any_cons, hb] at h; simp at h
        | false => rfl
    have hne : a.1 ≠ k := by simpa using hsplit.1
    have hka : (k == a.1) = false := by simpa using Ne.symm hne
    simp [List.lookup, hka, ih hsplit.2]

/-- Write-or-overwrite always makes the written content the stored content. -/
theorem storeRead_storeWrite (store : NoteStore) (k v : String) :
    storeRead (storeWrite store k v) k = some v := by
  unfold storeWrite storeRead
  by_cases h : store.any (fun e => e.1 == k) = true
  · simp only [h, if_true]
    exact lookup_overwrite k v store h
  · have h' : store.any (fun e => e.1 == k) = false := Bool.eq_false_iff.mpr h
    simp only [h', Bool.false_eq_true, if_false]
    exact lookup_append_missing k v store h'

/-- Claim C8: for a non-empty UnlinkedSet the report is the fixed-name
document "Orphaned Images Report.md" whose text splits into the header line
"# Orphaned Images", a fixed explanatory line, and exactly one bullet line
per path in scan order — `- [p](encode p)` without embedding, `- ![](encode p)`
with embedding — where encode percent-encodes exactly the spaces; a document
of that name is fully overwritten, never appended to. -/
theorem spec_C8 :
    reportNoteName = "Orphaned Images Report.md"
    ∧ (∀ (u : List String) (e : Bool), u ≠ [] →
        (∀ p ∈ u, ∀ c ∈ p.toList, c ≠ Char.ofNat 10) →
        splitLines (noteContent u e)
          = ["# Orphaned Images", "", "These images are not linked in any note:", ""]
            ++ u.map (reportLine e))
    ∧ (∀ p, reportLine false p = "- [" ++ p ++ "](" ++ encodeImagePath p ++ ")"
        ∧ reportLine true p = "- ![](" ++ encodeImagePath p ++ ")")
    ∧ (∀ p, (encodeImagePath p).toList
        = (p.toList.map (fun c => if c = ' ' then ['%', '2', '0'] else [c])).flatten)
    ∧ (∀ (store : NoteStore) (u : List String) (e : Bool),
        storeRead (createOrUpdateUnlinkedImagesNote store u e).1 reportNoteName
          = some (noteContent u e)) := by
  refine ⟨rfl, splitLines_noteContent, fun p => ⟨rfl, rfl⟩, fun p => ?_, fun store u e => ?_⟩
  · show spaceEncodeL p.toList = _
    induction p.toList with
    | nil => simp [spaceEncodeL]
    | cons c t ih =>
      by_cases hc : c = ' '
      · simp [spaceEncodeL, hc, ih]
      · simp [spaceEncodeL, hc, ih]
  · exact storeRead_storeWrite store reportNoteName (noteContent u e)

/-- Claim C8 witness: a two-path UnlinkedSet with a space in one path, both
report styles, over a store that already holds a stale report. -/
theorem spec_C8_witness :
    splitLines (noteContent ["img/a.png", "b c.png"] false)
      = ["# Orphaned Images", "", "These images are not linked in any note:", ""]
        ++ ["- [img/a.png](img/a.png)", "- [b c.png](b%20c.png)"]
    ∧ storeRead
        (createOrUpdateUnlinkedImagesNote [("Orphaned Images Report.md", "stale")]
          ["img/a.png", "b c.png"] true).1 reportNoteName
      = some (noteContent ["img/a.png", "b c.png"] true) := by
  constructor
  · have := spec_C8.2.1 ["img/a.png", "b c.png"] false (by decide) (by decide)
    rw [this]
    decide
  · exact spec_C8.2.2.2.2 [("Orphaned Images Report.md", "stale")] ["img/a.png", "b c.png"] true

end FindOrphanedImages
